import Mathlib

/-!
Verification of the `S3LocationSyncRatchet` object-store location synchronizer
(file `s3-location-sync-ratchet.ts`).  JavaScript strings are modelled as lists
of characters, `Date` values as natural-number epoch timestamps, and the two S3
buckets as lists of objects keyed by their `Key` field.  The asynchronous
driver `PromiseRatchet.runBoundedParallelSingleParam` is not part of the source
excerpt; where it is needed it is modelled from the spec (a bounded worker pool
that applies the callback to every element independently), collapsed to a
sequential traversal, which is faithful for every set-level property proved
here.
-/

namespace Ratchet

/-- JavaScript strings, modelled as lists of characters. -/
abbrev Str := List Char

/-- Metadata record for one stored object, mirroring the `S3Object` interface
of the source (`Key`, `ETag`, `Size`, `LastModified`); `Date` is modelled as a
natural-number timestamp (`getTime()` millis). -/
structure S3Object where
  Key : Str
  ETag : Str
  Size : Nat
  LastModified : Nat
deriving DecidableEq

/-- The key to object-record mapping built by `listObjects` (a JavaScript
object used as a dictionary), modelled as an insertion-ordered association
list. -/
abbrev RMap := List (Str × S3Object)

/-- Whether `s` starts with `pat` (the test JavaScript `String.replace` makes
at each scan position, and the server-side `Prefix` filter of
`listObjectsV2`). -/
def leadsWith : Str → Str → Bool
  | [], _ => true
  | _ :: _, [] => false
  | p :: ps, c :: cs => if p = c then leadsWith ps cs else false

/-- JavaScript `s.replace(pat, rep)` for a plain-string pattern: replace the
first (leftmost) occurrence of `pat` in `s` with `rep`; if `pat` does not
occur, return `s` unchanged.  An empty `pat` matches at position 0. -/
def replaceFirst (pat rep : Str) : Str → Str
  | [] => if leadsWith pat [] then rep ++ List.drop pat.length [] else []
  | c :: cs =>
      if leadsWith pat (c :: cs) then rep ++ List.drop pat.length (c :: cs)
      else c :: replaceFirst pat rep cs

/-- The destination key computed by `copyObject`:
`key.replace(this.config.srcPrefix, this.config.dstPrefix)`. -/
def copyObjectDstKey (srcPrefix dstPrefix key : Str) : Str :=
  replaceFirst srcPrefix dstPrefix key

/-- The destination key computed inside `compareSrcAndDst`:
`key.replace(this.config.srcPrefix, this.config.dstPrefix)`. -/
def compareDstKey (srcPrefix dstPrefix key : Str) : Str :=
  replaceFirst srcPrefix dstPrefix key

/-- The spec's own description of key translation, stated in its words:
"replace source prefix with destination prefix" on a key that lies under the
source prefix, i.e. keep the suffix and put the destination prefix in front.
Used only to compare the source's translation against the spec (claim C8). -/
def pfxSubstSpec (srcPrefix dstPrefix key : Str) : Str :=
  dstPrefix ++ List.drop srcPrefix.length key

/-- Dictionary lookup `m[k]` / `m.hasOwnProperty(k) ? m[k] : undefined`. -/
def rmapGet : RMap → Str → Option S3Object
  | [], _ => none
  | (k, v) :: rest, key => if k = key then some v else rmapGet rest key

/-- Dictionary write `m[k] = v`: overwrite in place when the key exists,
append otherwise (JavaScript objects keep insertion order). -/
def rmapPut : RMap → Str → S3Object → RMap
  | [], k, v => [(k, v)]
  | (k', v') :: rest, k, v =>
      if k' = k then (k, v) :: rest else (k', v') :: rmapPut rest k v

/-- Basic sanity checks of the string model. -/
example : replaceFirst ['a'] ['d'] ['b', 'a', 'a'] = ['b', 'd', 'a'] := by decide
example : replaceFirst [] ['x'] ['a', 'b'] = ['x', 'a', 'b'] := by decide
example : replaceFirst ['z'] ['x'] ['a', 'b'] = ['a', 'b'] := by decide
example : leadsWith ['a', 'b'] ['a', 'b', 'c'] = true := by decide
example : leadsWith ['a', 'b'] ['a', 'c'] = false := by decide

theorem leadsWith_append (p t : Str) : leadsWith p (p ++ t) = true := by
  induction p with
  | nil => rfl
  | cons c cs ih => simp [leadsWith, ih]

theorem leadsWith_eq {p s : Str} (h : leadsWith p s = true) :
    p ++ List.drop p.length s = s := by
  induction p generalizing s with
  | nil => simp
  | cons c cs ih =>
    cases s with
    | nil => simp [leadsWith] at h
    | cons d ds =>
      unfold leadsWith at h
      split at h
      · next hcd => subst hcd; simpa using ih h
      · exact absurd h (by simp)

theorem replaceFirst_of_leads {p s : Str} (r : Str) (h : leadsWith p s = true) :
    replaceFirst p r s = r ++ List.drop p.length s := by
  cases s <;> simp [replaceFirst, h]

theorem leadsWith_replaceFirst {p k : Str} (d : Str) (h : leadsWith p k = true) :
    leadsWith d (replaceFirst p d k) = true := by
  rw [replaceFirst_of_leads d h]; exact leadsWith_append d _

theorem replaceFirst_inj {p d k₁ k₂ : Str} (h₁ : leadsWith p k₁ = true)
    (h₂ : leadsWith p k₂ = true)
    (h : replaceFirst p d k₁ = replaceFirst p d k₂) : k₁ = k₂ := by
  rw [replaceFirst_of_leads d h₁, replaceFirst_of_leads d h₂] at h
  have hdrop := List.append_cancel_left h
  calc k₁ = p ++ List.drop p.length k₁ := (leadsWith_eq h₁).symm
    _ = p ++ List.drop p.length k₂ := by rw [hdrop]
    _ = k₂ := leadsWith_eq h₂

theorem rmapGet_put (m : RMap) (k k' : Str) (v : S3Object) :
    rmapGet (rmapPut m k v) k' = if k = k' then some v else rmapGet m k' := by
  induction m with
  | nil => simp [rmapPut, rmapGet]
  | cons p rest ih =>
    obtain ⟨pk, pv⟩ := p
    by_cases hpk : pk = k
    · subst hpk
      by_cases hk : pk = k' <;> simp [rmapPut, rmapGet, hk]
    · by_cases hk : pk = k'
      · subst hk
        have : ¬k = pk := fun h => hpk h.symm
        simp [rmapPut, rmapGet, hpk, this]
      · simp [rmapPut, rmapGet, hpk, hk, ih]

theorem rmapGet_put_isSome (m : RMap) (k k' : Str) (v : S3Object)
    (h : (rmapGet m k').isSome = true) :
    (rmapGet (rmapPut m k v) k').isSome = true := by
  rw [rmapGet_put]
  split <;> simp_all

/-- The three classification buckets of the Diff Engine, mirroring the
`BucketCmpResult` interface: `needCopy` (absent at destination), `existed`
(unchanged), `diff` (conflicting). -/
structure BucketCmpResult where
  needCopy : List S3Object
  existed : List S3Object
  diff : List S3Object
deriving DecidableEq

/-- The three possible outcomes of classifying one source key. -/
inductive Cls where
  | needsCopy
  | unchanged
  | conflicting
deriving DecidableEq

/-- The classification decision `compareSrcAndDst` makes for one source key:
translate the key, look it up in the destination mapping, then compare `Size`
and `LastModified` in the order of the source's early returns. -/
def classifyOne (srcPrefix dstPrefix : Str) (dstObjs : RMap) (key : Str)
    (sObj : S3Object) : Cls :=
  let dstKey := compareDstKey srcPrefix dstPrefix key
  match rmapGet dstObjs dstKey with
  | none => .needsCopy
  | some dObj =>
      if sObj.Size ≠ dObj.Size then .conflicting
      else if sObj.LastModified ≤ dObj.LastModified then .unchanged
      else .conflicting

/-- One iteration of the per-key callback of `compareSrcAndDst`, pushing the
source record onto `needCopy`, `existed` or `diff` exactly as the source's
early-return chain does (`push` appends at the end). -/
def classifyStep (srcPrefix dstPrefix : Str) (dstObjs : RMap)
    (r : BucketCmpResult) (key : Str) (sObj : S3Object) : BucketCmpResult :=
  let dstKey := compareDstKey srcPrefix dstPrefix key
  match rmapGet dstObjs dstKey with
  | none => { r with needCopy := r.needCopy ++ [sObj] }
  | some dObj =>
      if sObj.Size ≠ dObj.Size then { r with diff := r.diff ++ [sObj] }
      else if sObj.LastModified ≤ dObj.LastModified then
        { r with existed := r.existed ++ [sObj] }
      else { r with diff := r.diff ++ [sObj] }

/-- The Diff Engine on two already-listed mappings: iterate over
`Object.keys(srcObjs)` and classify every source entry.  Modelled from the
spec where the source delegates the iteration to
`PromiseRatchet.runBoundedParallelSingleParam` (not under `src/`): per spec
section 5 the pool applies the callback to every key independently and only
the order of completion is unspecified, so it is modelled as a sequential
fold in key order. -/
def compareMaps (srcPrefix dstPrefix : Str) (srcObjs dstObjs : RMap) :
    BucketCmpResult :=
  srcObjs.foldl (fun r p => classifyStep srcPrefix dstPrefix dstObjs r p.1 p.2)
    ⟨[], [], []⟩

theorem classifyStep_eq (srcPrefix dstPrefix : Str) (dstObjs : RMap)
    (r : BucketCmpResult) (key : Str) (sObj : S3Object) :
    classifyStep srcPrefix dstPrefix dstObjs r key sObj =
      match classifyOne srcPrefix dstPrefix dstObjs key sObj with
      | .needsCopy => { r with needCopy := r.needCopy ++ [sObj] }
      | .unchanged => { r with existed := r.existed ++ [sObj] }
      | .conflicting => { r with diff := r.diff ++ [sObj] } := by
  simp only [classifyStep, classifyOne]
  cases h : rmapGet dstObjs (compareDstKey srcPrefix dstPrefix key) with
  | none => simp [h]
  | some dObj =>
    by_cases hs : sObj.Size ≠ dObj.Size
    · simp [h, hs]
    · by_cases ht : sObj.LastModified ≤ dObj.LastModified <;> simp [h, hs, ht]

/-- Selector used to state the characterization of `compareMaps`. -/
def clsSel (srcPrefix dstPrefix : Str) (dstObjs : RMap) (c : Cls)
    (srcObjs : RMap) : List S3Object :=
  (srcObjs.filter
      (fun p => classifyOne srcPrefix dstPrefix dstObjs p.1 p.2 = c)).map Prod.snd

theorem compareMaps_foldl_eq (srcPrefix dstPrefix : Str) (dstObjs : RMap)
    (srcObjs : RMap) (r : BucketCmpResult) :
    srcObjs.foldl (fun r p => classifyStep srcPrefix dstPrefix dstObjs r p.1 p.2) r =
      ⟨r.needCopy ++ clsSel srcPrefix dstPrefix dstObjs .needsCopy srcObjs,
       r.existed ++ clsSel srcPrefix dstPrefix dstObjs .unchanged srcObjs,
       r.diff ++ clsSel srcPrefix dstPrefix dstObjs .conflicting srcObjs⟩ := by
  induction srcObjs generalizing r with
  | nil => simp [clsSel]
  | cons p rest ih =>
    rw [List.foldl_cons, ih, classifyStep_eq]
    cases hc : classifyOne srcPrefix dstPrefix dstObjs p.1 p.2 <;>
      simp [clsSel, hc, List.filter_cons]

theorem compareMaps_eq (srcPrefix dstPrefix : Str) (srcObjs dstObjs : RMap) :
    compareMaps srcPrefix dstPrefix srcObjs dstObjs =
      ⟨clsSel srcPrefix dstPrefix dstObjs .needsCopy srcObjs,
       clsSel srcPrefix dstPrefix dstObjs .unchanged srcObjs,
       clsSel srcPrefix dstPrefix dstObjs .conflicting srcObjs⟩ := by
  unfold compareMaps
  rw [compareMaps_foldl_eq]
  rfl

/-- The state of the two S3 buckets seen by one synchronizer run, plus a
logical clock supplying the `LastModified` timestamp the store stamps on each
new upload (uploads happen "now", so each write uses the current clock and
advances it). -/
structure World where
  src : List S3Object
  dst : List S3Object
  clock : Nat
deriving DecidableEq

/-- Store-side lookup of a bucket by exact key (first match). -/
def bucketGet : List S3Object → Str → Option S3Object
  | [], _ => none
  | o :: rest, k => if o.Key = k then some o else bucketGet rest k

/-- Store-side write of one object into a bucket at its own key: replace an
existing object with that key, append otherwise. -/
def bucketPut : List S3Object → S3Object → List S3Object
  | [], o => [o]
  | x :: rest, o => if x.Key = o.Key then o :: rest else x :: bucketPut rest o

/-- `listObjects` over the bucket model: the store's `listObjectsV2` returns
the objects whose key starts with the requested prefix, and the loop body
builds the dictionary `rval[obj.Key] = record` over them.  Pagination is
exercised separately by `listObjectsGo` below; at the whole-bucket level the
drained listing is the filter of the bucket by the prefix. -/
def listModel (bucket : List S3Object) (pfx : Str) : RMap :=
  (bucket.filter (fun o => leadsWith pfx o.Key)).foldl
    (fun m o => rmapPut m o.Key o) []

/-- `compareSrcAndDst`: list source and destination, then run the Diff
Engine. -/
def compareSrcAndDst (srcPrefix dstPrefix : Str) (w : World) : BucketCmpResult :=
  compareMaps srcPrefix dstPrefix (listModel w.src srcPrefix)
    (listModel w.dst dstPrefix)

/-- The effect of one successful `copyObject(key, size)` call on the world:
read the object at `key` from the source bucket and write its content to the
destination bucket at the translated key.  The destination store stamps the
upload with the current time (`LastModified := clock`). -/
def copyModel (srcPrefix dstPrefix : Str) (w : World) (key : Str) : World :=
  match bucketGet w.src key with
  | none => w
  | some s =>
      { w with
        dst := bucketPut w.dst
          { Key := copyObjectDstKey srcPrefix dstPrefix key,
            ETag := s.ETag, Size := s.Size, LastModified := w.clock },
        clock := w.clock + 1 }

/-- The `COPYING` phase over one list of records: `copyObject(obj.Key,
obj.Size)` for every record.  Modelled from the spec where the source
delegates dispatch to `PromiseRatchet.runBoundedParallelSingleParam` (not
under `src/`): every record is processed independently by a bounded pool,
modelled as a sequential fold (all writes target pairwise-distinct keys in
the runs proved below, so dispatch order is immaterial). -/
def runCopies (srcPrefix dstPrefix : Str) (w : World) (objs : List S3Object) :
    World :=
  objs.foldl (fun w o => copyModel srcPrefix dstPrefix w o.Key) w

/-- `startSyncing`: compare, and when `needCopy` or `diff` is non-empty copy
both lists and compare again; return whether the final compare found both
`needCopy` and `diff` empty, together with the final world state. -/
def startSyncing (srcPrefix dstPrefix : Str) (w : World) : Bool × World :=
  let c1 := compareSrcAndDst srcPrefix dstPrefix w
  if c1.needCopy.length > 0 || c1.diff.length > 0 then
    let w1 := runCopies srcPrefix dstPrefix w c1.needCopy
    let w2 := runCopies srcPrefix dstPrefix w1 c1.diff
    let c2 := compareSrcAndDst srcPrefix dstPrefix w2
    ((c2.needCopy.length == 0 && c2.diff.length == 0), w2)
  else ((c1.needCopy.length == 0 && c1.diff.length == 0), w)

/-- Iterated sync runs (for the deletion-neutrality claim about "any number
of sync runs"). -/
def iterRuns (srcPrefix dstPrefix : Str) : Nat → World → World
  | 0, w => w
  | n + 1, w => iterRuns srcPrefix dstPrefix n (startSyncing srcPrefix dstPrefix w).2

theorem bucketGet_put (b : List S3Object) (o : S3Object) (k : Str) :
    bucketGet (bucketPut b o) k = if o.Key = k then some o else bucketGet b k := by
  induction b with
  | nil => simp [bucketPut, bucketGet]
  | cons x rest ih =>
    by_cases hx : x.Key = o.Key
    · by_cases hk : o.Key = k <;> simp [bucketPut, bucketGet, hx, hk]
    · by_cases hk : x.Key = k
      · subst hk
        have : ¬o.Key = x.Key := fun h => hx h.symm
        simp [bucketPut, bucketGet, hx, this]
      · simp [bucketPut, bucketGet, hx, hk, ih]

theorem bucketGet_isSome_iff (b : List S3Object) (k : Str) :
    (bucketGet b k).isSome = true ↔ k ∈ b.map S3Object.Key := by
  induction b with
  | nil => simp [bucketGet]
  | cons x rest ih =>
    by_cases hx : x.Key = k
    · simp [bucketGet, hx]
    · simp only [bucketGet, if_neg hx, ih, List.map_cons, List.mem_cons]
      exact ⟨fun h => .inr h, fun h => h.elim (fun h => absurd h.symm hx) id⟩

theorem bucketPut_mem_keys {b : List S3Object} {o : S3Object} {k : Str}
    (h : k ∈ (bucketPut b o).map S3Object.Key) :
    k = o.Key ∨ k ∈ b.map S3Object.Key := by
  have hs := (bucketGet_isSome_iff (bucketPut b o) k).mpr h
  rw [bucketGet_put] at hs
  by_cases ho : o.Key = k
  · exact .inl ho.symm
  · rw [if_neg ho] at hs
    exact .inr ((bucketGet_isSome_iff b k).mp hs)

theorem bucketPut_nodup {b : List S3Object} {o : S3Object}
    (h : (b.map S3Object.Key).Nodup) :
    ((bucketPut b o).map S3Object.Key).Nodup := by
  induction b with
  | nil => simp [bucketPut]
  | cons x rest ih =>
    rw [List.map_cons, List.nodup_cons] at h
    show ((if x.Key = o.Key then o :: rest else x :: bucketPut rest o).map
      S3Object.Key).Nodup
    by_cases hx : x.Key = o.Key
    · rw [if_pos hx, List.map_cons, List.nodup_cons]
      exact ⟨hx ▸ h.1, h.2⟩
    · rw [if_neg hx, List.map_cons, List.nodup_cons]
      refine ⟨fun hk => ?_, ih h.2⟩
      rcases bucketPut_mem_keys hk with h' | h'
      · exact hx h'
      · exact h.1 h'

theorem bucketGet_mem_nodup {b : List S3Object} {o : S3Object}
    (hnd : (b.map S3Object.Key).Nodup) (hmem : o ∈ b) :
    bucketGet b o.Key = some o := by
  induction b with
  | nil => simp at hmem
  | cons x rest ih =>
    rw [List.map_cons, List.nodup_cons] at hnd
    rcases List.mem_cons.mp hmem with h | h
    · subst h; simp [bucketGet]
    · have hx : x.Key ≠ o.Key := by
        intro he
        exact hnd.1 (he.symm ▸ List.mem_map_of_mem S3Object.Key h)
      simp [bucketGet, hx, ih hnd.2 h]

theorem rmapPut_notMem {m : RMap} {k : Str} (v : S3Object)
    (h : k ∉ m.map Prod.fst) : rmapPut m k v = m ++ [(k, v)] := by
  induction m with
  | nil => rfl
  | cons p rest ih =>
    rw [List.map_cons, List.mem_cons] at h
    push_neg at h
    show (if p.1 = k then (k, v) :: rest else p :: rmapPut rest k v) = _
    rw [if_neg (fun he => h.1 he.symm), ih h.2]
    rfl

theorem foldl_rmapPut_eq (l : List S3Object) (acc : RMap)
    (hnd : (l.map S3Object.Key).Nodup)
    (hdisj : ∀ o ∈ l, o.Key ∉ acc.map Prod.fst) :
    l.foldl (fun m o => rmapPut m o.Key o) acc =
      acc ++ l.map (fun o => (o.Key, o)) := by
  induction l generalizing acc with
  | nil => simp
  | cons o rest ih =>
    rw [List.map_cons, List.nodup_cons] at hnd
    have hdisj' : ∀ x ∈ rest, x.Key ∉ (acc ++ [(o.Key, o)]).map Prod.fst := by
      intro x hx
      rw [List.map_append, List.mem_append]
      push_neg
      refine ⟨hdisj x (List.mem_cons_of_mem o hx), ?_⟩
      simp only [List.map_cons, List.map_nil, List.mem_singleton]
      intro he
      exact hnd.1 (he ▸ List.mem_map_of_mem S3Object.Key hx)
    rw [List.foldl_cons, rmapPut_notMem o (hdisj o (List.mem_cons_self o rest)),
      ih _ hnd.2 hdisj']
    simp

theorem listModel_eq {b : List S3Object} (pfx : Str)
    (hnd : (b.map S3Object.Key).Nodup) :
    listModel b pfx =
      (b.filter (fun o => leadsWith pfx o.Key)).map (fun o => (o.Key, o)) := by
  unfold listModel
  rw [foldl_rmapPut_eq _ _ ?_ (by simp)]
  · simp
  · exact ((List.filter_sublist b).map S3Object.Key).nodup hnd

theorem rmapGet_map_eq (l : List S3Object) (k : Str) :
    rmapGet (l.map (fun o => (o.Key, o))) k = bucketGet l k := by
  induction l with
  | nil => rfl
  | cons o rest ih =>
    by_cases h : o.Key = k <;> simp [rmapGet, bucketGet, h, ih]

theorem bucketGet_filter_of_leads {b : List S3Object} {pfx k : Str}
    (h : leadsWith pfx k = true) :
    bucketGet (b.filter (fun o => leadsWith pfx o.Key)) k = bucketGet b k := by
  induction b with
  | nil => rfl
  | cons x rest ih =>
    by_cases hx : x.Key = k
    · rw [List.filter_cons, if_pos (by rw [hx]; exact h)]
      simp [bucketGet, hx]
    · by_cases hf : leadsWith pfx x.Key = true
      · rw [List.filter_cons, if_pos (by exact hf)]
        simp [bucketGet, hx, ih]
      · rw [List.filter_cons, if_neg (by simpa using hf)]
        simp [bucketGet, hx, ih]

theorem bucketGet_filter_of_not_leads {b : List S3Object} {pfx k : Str}
    (h : leadsWith pfx k = false) :
    bucketGet (b.filter (fun o => leadsWith pfx o.Key)) k = none := by
  induction b with
  | nil => rfl
  | cons x rest ih =>
    by_cases hf : leadsWith pfx x.Key = true
    · have hx : x.Key ≠ k := fun he => by rw [he, h] at hf; exact Bool.false_ne_true hf
      rw [List.filter_cons, if_pos (by exact hf)]
      simp [bucketGet, hx, ih]
    · rw [List.filter_cons, if_neg (by simpa using hf)]
      exact ih

theorem listModel_get {b : List S3Object} (pfx : Str) (k : Str)
    (hnd : (b.map S3Object.Key).Nodup) :
    rmapGet (listModel b pfx) k =
      if leadsWith pfx k = true then bucketGet b k else none := by
  rw [listModel_eq pfx hnd, rmapGet_map_eq]
  by_cases h : leadsWith pfx k = true
  · rw [if_pos h, bucketGet_filter_of_leads h]
  · rw [if_neg h, bucketGet_filter_of_not_leads (by simpa using h)]

theorem mem_rmapPut {m : RMap} {k : Str} {v : S3Object} {p : Str × S3Object}
    (h : p ∈ rmapPut m k v) : p ∈ m ∨ p = (k, v) := by
  induction m with
  | nil => exact .inr (by simpa [rmapPut] using h)
  | cons q rest ih =>
    obtain ⟨qk, qv⟩ := q
    simp only [rmapPut] at h
    by_cases hq : qk = k
    · rw [if_pos hq] at h
      rcases List.mem_cons.mp h with h | h
      · exact .inr h
      · exact .inl (List.mem_cons_of_mem _ h)
    · rw [if_neg hq] at h
      rcases List.mem_cons.mp h with h | h
      · exact .inl (h ▸ List.mem_cons_self _ rest)
      · rcases ih h with h' | h'
        · exact .inl (List.mem_cons_of_mem _ h')
        · exact .inr h'

theorem mem_foldl_rmapPut {l : List S3Object} {acc : RMap} {p : Str × S3Object}
    (h : p ∈ l.foldl (fun m o => rmapPut m o.Key o) acc) :
    p ∈ acc ∨ ∃ o ∈ l, p = (o.Key, o) := by
  induction l generalizing acc with
  | nil => exact .inl h
  | cons o rest ih =>
    rw [List.foldl_cons] at h
    rcases ih h with h' | h'
    · rcases mem_rmapPut h' with h'' | h''
      · exact .inl h''
      · exact .inr ⟨o, List.mem_cons_self o rest, h''⟩
    · obtain ⟨o', ho', he⟩ := h'
      exact .inr ⟨o', List.mem_cons_of_mem o ho', he⟩

theorem mem_listModel {b : List S3Object} {pfx : Str} {p : Str × S3Object}
    (h : p ∈ listModel b pfx) :
    p.2 ∈ b ∧ leadsWith pfx p.2.Key = true ∧ p.1 = p.2.Key := by
  rcases mem_foldl_rmapPut h with h' | h'
  · simp at h'
  · obtain ⟨o, ho, he⟩ := h'
    have hmem := List.mem_filter.mp ho
    subst he
    exact ⟨hmem.1, by simpa using hmem.2, rfl⟩

/-- A record of one attempt made inside `copyObject`'s retry loop: which
strategy was used (`strat` is the `express` flag), the attempt number, and
whether the S3 call succeeded. -/
structure CopyAttemptRec where
  strat : Bool
  idx : Nat
  ok : Bool
deriving DecidableEq

/-- The retry loop of `copyObject`, with the environment's behaviour given as
an oracle `att strategy attemptIdx` telling whether that S3 call succeeds or
throws (and with what error).  The `try`/`catch` of the source is explicit:
an `Except.error` from an attempt is caught, `retries` is incremented, and
the loop continues; the loop stops on the first success or once
`retries = maxRetries` (the remaining fuel reaches zero).  The result lists
the attempts made and whether `completedCopying` ended `true`; the outer
`Except` layer records whether `copyObject` itself throws. -/
def copyObjectE (att : Bool → Nat → Except String Unit) (express : Bool) :
    Nat → Nat → Except String (List CopyAttemptRec × Bool)
  | 0, _ => .ok ([], false)
  | fuel + 1, i =>
      match att express i with
      | .ok _ => .ok ([⟨express, i, true⟩], true)
      | .error _ =>
          match copyObjectE att express fuel (i + 1) with
          | .ok (tr, c) => .ok (⟨express, i, false⟩ :: tr, c)
          | .error e => .error e

/-- The `COPYING` fan-out: `copyObject(obj.Key, obj.Size)` for every record
of a classification list (slow copy: `express` defaults to `false`), the
per-key oracle indexed by the key.  Modelled from the spec where the source
delegates dispatch to `PromiseRatchet.runBoundedParallelSingleParam` (not
under `src/`): per spec sections 4.4 and 5 every key is dispatched to the
pool and attempted independently, modelled as a sequential traversal that
collects one result per key. -/
def copyPhase (att : Str → Bool → Nat → Except String Unit) (maxRetries : Nat) :
    List S3Object → Except String (List (List CopyAttemptRec × Bool))
  | [] => .ok []
  | o :: rest =>
      match copyObjectE (att o.Key) false maxRetries 0 with
      | .ok r =>
          match copyPhase att maxRetries rest with
          | .ok rs => .ok (r :: rs)
          | .error e => .error e
      | .error e => .error e

/-- One page of the store's `listObjectsV2` response: the object records of
the page, `IsTruncated`, and `NextContinuationToken` (tokens modelled as
natural numbers). -/
structure ListPage where
  contents : List S3Object
  isTruncated : Bool
  nextToken : Option Nat
deriving DecidableEq

/-- The body of the listing loop over one page:
`rval[obj.Key] = { Key, LastModified, ETag, Size }` for each item. -/
def insertPage (m : RMap) (pg : ListPage) : RMap :=
  pg.contents.foldl (fun m o => rmapPut m o.Key o) m

/-- The pagination loop of `listObjects`, with the store given as
`fetch continuationToken` (the first request carries no token).  A rejected
call is not caught anywhere in `listObjects`, so it propagates as the
result; a page with `IsTruncated` set continues the loop with
`NextContinuationToken`.  `fuel` bounds the recursion depth of the model:
`none` means the loop was still running after `fuel` pages (the source would
still be looping), and every claim about the returned mapping is conditioned
on the loop finishing. -/
def listObjectsGo (fetch : Option Nat → Except String ListPage) :
    Nat → Option Nat → RMap → Option (Except String RMap)
  | 0, _, _ => none
  | fuel + 1, tok, acc =>
      match fetch tok with
      | .error e => some (.error e)
      | .ok pg =>
          let acc' := insertPage acc pg
          if pg.isTruncated then listObjectsGo fetch fuel pg.nextToken acc'
          else some (.ok acc')

/-- `listObjects` starts with no continuation token and an empty mapping. -/
def listObjects (fetch : Option Nat → Except String ListPage) (fuel : Nat) :
    Option (Except String RMap) :=
  listObjectsGo fetch fuel none []

/-- The pages the loop fetches successfully, in order, mirroring
`listObjectsGo` (stopping at an error, at a non-truncated page, or when fuel
runs out). -/
def pagesVisited (fetch : Option Nat → Except String ListPage) :
    Nat → Option Nat → List ListPage
  | 0, _ => []
  | fuel + 1, tok =>
      match fetch tok with
      | .error _ => []
      | .ok pg =>
          if pg.isTruncated then pg :: pagesVisited fetch fuel pg.nextToken
          else [pg]

/-- The raw constructor configuration, mirroring
`S3LocationSyncRatchetConfig`.  TypeScript callers can omit any field at
runtime, so every field is modelled as optional; store handles are modelled
as opaque identifiers.  `maxNumThreads` and `maxRetries` are JavaScript
numbers, so the model uses integers: negative values are representable and,
being truthy, pass the constructor's falsiness checks unchanged (`NaN`,
also falsy, has no integer counterpart and is outside the model). -/
structure S3LocationSyncRatchetConfig where
  srcS3 : Option Nat
  srcBucket : Option Str
  srcPrefix : Option Str
  dstS3 : Option Nat
  dstBucket : Option Str
  dstPrefix : Option Str
  maxNumThreads : Option Int
  maxRetries : Option Int
deriving DecidableEq

/-- JavaScript truthiness test `!x` on an optional numeric field: `undefined`
and `0` are falsy, any other number — negative values included — is
truthy. -/
def jsFalsyNum : Option Int → Bool
  | none => true
  | some n => n == 0

/-- The constructor of `S3LocationSyncRatchet`.  The guard
`RequireRatchet.notNullOrUndefined(config, 'config')` is modelled from the
spec (its class is not part of the source excerpt): per its name and the
spec's description of the construction-time check it throws exactly on a
`null`/`undefined` value, here the `none` case.  A present configuration
object then has `maxNumThreads` defaulted to 15 and `maxRetries` defaulted
to 5 whenever the given value is falsy. -/
def construct (config : Option S3LocationSyncRatchetConfig) :
    Except String S3LocationSyncRatchetConfig :=
  match config with
  | none => .error "config"
  | some cfg =>
      let cfg₁ :=
        if jsFalsyNum cfg.maxNumThreads then { cfg with maxNumThreads := some 15 }
        else cfg
      let cfg₂ :=
        if jsFalsyNum cfg₁.maxRetries then { cfg₁ with maxRetries := some 5 }
        else cfg₁
      .ok cfg₂

/-- The retry loop of `copyObject` under the configuration's actual
`maxRetries`, a JavaScript number: `retries` counts up from 0, so the test
`retries < this.config.maxRetries` admits exactly `maxRetries` iterations
when the bound is positive and none at all when it is zero or negative
(`Int.toNat` of a non-positive bound is 0). -/
def copyObjectRun (att : Bool → Nat → Except String Unit) (express : Bool)
    (maxRetries : Int) : Except String (List CopyAttemptRec × Bool) :=
  copyObjectE att express maxRetries.toNat 0

theorem copyObjectE_ok (att : Bool → Nat → Except String Unit) (express : Bool) :
    ∀ fuel i, ∃ tr c, copyObjectE att express fuel i = .ok (tr, c) := by
  intro fuel
  induction fuel with
  | zero => exact fun i => ⟨[], false, rfl⟩
  | succ fuel ih =>
    intro i
    cases h : att express i with
    | ok u => exact ⟨[⟨express, i, true⟩], true, by simp [copyObjectE, h]⟩
    | error e =>
      obtain ⟨tr, c, hrec⟩ := ih (i + 1)
      exact ⟨⟨express, i, false⟩ :: tr, c, by simp [copyObjectE, h, hrec]⟩

theorem copyObjectE_trace (att : Bool → Nat → Except String Unit)
    (express : Bool) :
    ∀ fuel i tr c, copyObjectE att express fuel i = .ok (tr, c) →
      tr.length ≤ fuel ∧ (∀ a ∈ tr, a.strat = express)
      ∧ (∀ a ∈ tr.dropLast, a.ok = false)
      ∧ (1 ≤ fuel → 1 ≤ tr.length) := by
  intro fuel
  induction fuel with
  | zero =>
    intro i tr c h
    simp only [copyObjectE, Except.ok.injEq, Prod.mk.injEq] at h
    obtain ⟨rfl, rfl⟩ := h
    simp
  | succ fuel ih =>
    intro i tr c h
    simp only [copyObjectE] at h
    cases ha : att express i with
    | ok u =>
      rw [ha] at h
      simp only [Except.ok.injEq, Prod.mk.injEq] at h
      obtain ⟨rfl, rfl⟩ := h
      simp
    | error e =>
      rw [ha] at h
      cases hrec : copyObjectE att express fuel (i + 1) with
      | error e' => rw [hrec] at h; exact absurd h (by simp)
      | ok p =>
        obtain ⟨tr', c'⟩ := p
        rw [hrec] at h
        simp only [Except.ok.injEq, Prod.mk.injEq] at h
        obtain ⟨rfl, rfl⟩ := h
        obtain ⟨hlen, hstrat, hfail, _⟩ := ih (i + 1) tr' c' hrec
        refine ⟨by simpa using Nat.succ_le_succ hlen, ?_, ?_, fun _ => by simp⟩
        · intro a ha'
          rcases List.mem_cons.mp ha' with rfl | ha'
          · rfl
          · exact hstrat a ha'
        · intro a ha'
          cases tr' with
          | nil => simp at ha'
          | cons y ys =>
            rw [List.dropLast_cons₂] at ha'
            rcases List.mem_cons.mp ha' with rfl | ha'
            · rfl
            · exact hfail a ha'

theorem copyPhase_ok (att : Str → Bool → Nat → Except String Unit)
    (maxRetries : Nat) :
    ∀ objs, ∃ rs, copyPhase att maxRetries objs = .ok rs ∧
      rs.length = objs.length := by
  intro objs
  induction objs with
  | nil => exact ⟨[], rfl, rfl⟩
  | cons o rest ih =>
    obtain ⟨r, c, h1⟩ := copyObjectE_ok (att o.Key) false maxRetries 0
    obtain ⟨rs, h2, hlen⟩ := ih
    exact ⟨(r, c) :: rs, by simp [copyPhase, h1, h2], by simp [hlen]⟩

/-- C3: every error thrown by a copy attempt is caught inside `copyObject`:
for every oracle of attempt outcomes (including one that fails every
attempt) and every retry bound, `copyObjectE` returns normally rather than
raising, and the `COPYING` phase consequently produces one result per key —
no key's exhausted retries prevents the remaining keys from being
attempted. -/
theorem copyObject_swallows_all_errors :
    (∀ (att : Bool → Nat → Except String Unit) (express : Bool) (fuel i : Nat),
        ∃ tr c, copyObjectE att express fuel i = Except.ok (tr, c))
    ∧ (∀ (att : Str → Bool → Nat → Except String Unit) (maxRetries : Nat)
        (objs : List S3Object), ∃ rs,
          copyPhase att maxRetries objs = Except.ok rs ∧
          rs.length = objs.length) :=
  ⟨fun att express fuel i => copyObjectE_ok att express fuel i,
   fun att maxRetries objs => copyPhase_ok att maxRetries objs⟩

/-- C5: the retry loop of `copyObject` makes at most `maxRetries` attempts,
every attempt uses the strategy selected by the `express` flag (never
escalated between attempts), and no attempt follows the first successful
one (every attempt other than the last one in the trace failed). -/
theorem copyObject_bounded_same_strategy :
    ∀ (att : Bool → Nat → Except String Unit) (express : Bool)
      (maxRetries i : Nat) (tr : List CopyAttemptRec) (c : Bool),
      copyObjectE att express maxRetries i = Except.ok (tr, c) →
      tr.length ≤ maxRetries ∧ (∀ a ∈ tr, a.strat = express)
      ∧ (∀ a ∈ tr.dropLast, a.ok = false) :=
  fun att express maxRetries i tr c h =>
    ⟨(copyObjectE_trace att express maxRetries i tr c h).1,
     (copyObjectE_trace att express maxRetries i tr c h).2.1,
     (copyObjectE_trace att express maxRetries i tr c h).2.2.1⟩

/-- An oracle for the witness: the S3 call throws on the first two attempts
and succeeds from the third on, whatever the strategy. -/
def attFailTwice : Bool → Nat → Except String Unit :=
  fun _ i => if i < 2 then .error "boom" else .ok ()

theorem copyObject_bounded_same_strategy_witness :
    ([⟨true, 0, false⟩, ⟨true, 1, false⟩, ⟨true, 2, true⟩] :
        List CopyAttemptRec).length ≤ 5
    ∧ (∀ a ∈ ([⟨true, 0, false⟩, ⟨true, 1, false⟩, ⟨true, 2, true⟩] :
        List CopyAttemptRec), a.strat = true)
    ∧ (∀ a ∈ ([⟨true, 0, false⟩, ⟨true, 1, false⟩, ⟨true, 2, true⟩] :
        List CopyAttemptRec).dropLast, a.ok = false) :=
  copyObject_bounded_same_strategy attFailTwice true 5 0 _ true rfl

/-- C8: both the Diff Engine and the Copy Executor translate a source key
with the same expression, and on any key lying under the source prefix the
translation is exactly the spec's prefix substitution (destination prefix
followed by the key's remainder). -/
theorem copyObject_compare_dstKey_agree :
    ∀ srcPrefix dstPrefix k : Str,
      copyObjectDstKey srcPrefix dstPrefix k = compareDstKey srcPrefix dstPrefix k
      ∧ (leadsWith srcPrefix k = true →
          copyObjectDstKey srcPrefix dstPrefix k =
            pfxSubstSpec srcPrefix dstPrefix k) :=
  fun _ dstPrefix _ => ⟨rfl, fun h => replaceFirst_of_leads dstPrefix h⟩

theorem copyObject_compare_dstKey_agree_witness :
    copyObjectDstKey ['a'] ['c', 'd'] ['a', 'b'] =
      compareDstKey ['a'] ['c', 'd'] ['a', 'b']
    ∧ copyObjectDstKey ['a'] ['c', 'd'] ['a', 'b'] =
      pfxSubstSpec ['a'] ['c', 'd'] ['a', 'b'] :=
  ⟨(copyObject_compare_dstKey_agree ['a'] ['c', 'd'] ['a', 'b']).1,
   (copyObject_compare_dstKey_agree ['a'] ['c', 'd'] ['a', 'b']).2 (by decide)⟩

/-- A configuration value with every optional field absent, as a TypeScript
caller can produce at runtime. -/
def cfgAllNone : S3LocationSyncRatchetConfig :=
  ⟨none, none, none, none, none, none, none, none⟩

/-- C9 counterexample: a configuration missing every required field (both
store handles, buckets and prefixes) is accepted by the constructor without
any configuration error — the constructor only checks that the configuration
object itself is present. -/
theorem construct_accepts_missing_fields :
    construct (some cfgAllNone) =
      Except.ok ⟨none, none, none, none, none, none, some 15, some 5⟩ := rfl

/-- C9 amended: construction fails with a configuration error exactly when
the configuration object itself is missing (`null`/`undefined`); a present
configuration object is accepted at construction time even when its
required fields (store handles, buckets, prefixes) are missing. -/
theorem construct_rejects_only_missing_config :
    (∃ e, construct none = Except.error e)
    ∧ (∀ cfg, ∃ c, construct (some cfg) = Except.ok c) :=
  ⟨⟨"config", rfl⟩, fun _ => ⟨_, rfl⟩⟩

theorem jsFalsyNum_false {x : Option Int} (h : jsFalsyNum x = false) :
    ∃ n, x = some n ∧ n ≠ 0 := by
  cases x with
  | none => simp [jsFalsyNum] at h
  | some n =>
    refine ⟨n, rfl, ?_⟩
    simp only [jsFalsyNum, beq_eq_false_iff_ne, ne_eq] at h
    exact h

/-- An oracle whose S3 call always succeeds, for the zero-attempts
counterexample. -/
def attAlwaysOk : Bool → Nat → Except String Unit := fun _ _ => .ok ()

/-- A configuration whose caller sets `maxRetries` to the truthy number
-1. -/
def cfgNegEx : S3LocationSyncRatchetConfig :=
  ⟨some 1, some ['b'], some ['p'], some 2, some ['c'], some ['q'], some 15,
    some (-1)⟩

/-- C10 counterexample: a negative `maxRetries` is truthy, so the
constructor keeps it unchanged, and under that bound the retry loop's test
`retries < maxRetries` fails already at `retries = 0`: `copyObject` makes
zero attempts (empty trace, nothing copied) even though every attempt would
have succeeded — so a caller can in fact configure zero copy attempts. -/
theorem construct_keeps_negative_retry_bound :
    construct (some cfgNegEx) = Except.ok cfgNegEx
    ∧ copyObjectRun attAlwaysOk false (-1) = Except.ok ([], false) :=
  ⟨rfl, rfl⟩

/-- C10 amended: the constructor replaces an omitted or falsy (in
particular zero) `maxNumThreads` or `maxRetries` with the defaults 15 and 5
and keeps any truthy value, so the constructed fields are never zero; under
a positive constructed `maxRetries` the copy loop makes at least one
attempt, but a negative caller-supplied value is truthy, survives
construction unchanged, and makes `copyObject` perform zero attempts. -/
theorem construct_defaults_falsy_fields :
    ∀ cfg c, construct (some cfg) = Except.ok c →
      (jsFalsyNum cfg.maxNumThreads = true → c.maxNumThreads = some 15)
      ∧ (jsFalsyNum cfg.maxNumThreads = false →
          c.maxNumThreads = cfg.maxNumThreads)
      ∧ (jsFalsyNum cfg.maxRetries = true → c.maxRetries = some 5)
      ∧ (jsFalsyNum cfg.maxRetries = false → c.maxRetries = cfg.maxRetries)
      ∧ (∃ t, c.maxNumThreads = some t ∧ t ≠ 0)
      ∧ (∃ m, c.maxRetries = some m ∧ m ≠ 0
          ∧ (1 ≤ m →
              ∀ (att : Bool → Nat → Except String Unit) (express : Bool),
                ∃ tr done, copyObjectRun att express m = Except.ok (tr, done)
                  ∧ 1 ≤ tr.length)
          ∧ (m < 0 →
              ∀ (att : Bool → Nat → Except String Unit) (express : Bool),
                copyObjectRun att express m = Except.ok ([], false))) := by
  intro cfg c h
  have hatt : ∀ m : Int, 1 ≤ m →
      ∀ (att : Bool → Nat → Except String Unit) (express : Bool),
        ∃ tr done, copyObjectRun att express m = Except.ok (tr, done)
          ∧ 1 ≤ tr.length := by
    intro m hm att express
    obtain ⟨tr, done, hok⟩ := copyObjectE_ok att express m.toNat 0
    exact ⟨tr, done, hok,
      (copyObjectE_trace att express m.toNat 0 tr done hok).2.2.2 (by omega)⟩
  have hneg : ∀ m : Int, m < 0 →
      ∀ (att : Bool → Nat → Except String Unit) (express : Bool),
        copyObjectRun att express m = Except.ok ([], false) := by
    intro m hm att express
    unfold copyObjectRun
    have h0 : m.toNat = 0 := by omega
    rw [h0]
    rfl
  by_cases ht : jsFalsyNum cfg.maxNumThreads = true
  · by_cases hr : jsFalsyNum cfg.maxRetries = true
    · simp only [construct, ht, hr, if_true, Except.ok.injEq] at h
      subst h
      exact ⟨fun _ => rfl, fun hf => absurd ht (by simp [hf]), fun _ => rfl,
        fun hf => absurd hr (by simp [hf]), ⟨15, rfl, by omega⟩,
        ⟨5, rfl, by omega, hatt 5, hneg 5⟩⟩
    · obtain ⟨m, hm, hm1⟩ := jsFalsyNum_false (Bool.not_eq_true _ ▸ hr)
      simp only [construct, ht, hr, if_true, if_false, Bool.false_eq_true,
        Except.ok.injEq] at h
      subst h
      exact ⟨fun _ => rfl, fun hf => absurd ht (by simp [hf]),
        fun hf => absurd hf (Bool.not_eq_true _ ▸ hr), fun _ => rfl,
        ⟨15, rfl, by omega⟩, ⟨m, hm, hm1, hatt m, hneg m⟩⟩
  · obtain ⟨t, htv, ht1⟩ := jsFalsyNum_false (Bool.not_eq_true _ ▸ ht)
    by_cases hr : jsFalsyNum cfg.maxRetries = true
    · simp only [construct, ht, hr, if_true, if_false, Bool.false_eq_true,
        Except.ok.injEq] at h
      subst h
      exact ⟨fun hf => absurd hf (Bool.not_eq_true _ ▸ ht), fun _ => rfl,
        fun _ => rfl, fun hf => absurd hr (by simp [hf]),
        ⟨t, htv, ht1⟩, ⟨5, rfl, by omega, hatt 5, hneg 5⟩⟩
    · obtain ⟨m, hm, hm1⟩ := jsFalsyNum_false (Bool.not_eq_true _ ▸ hr)
      simp only [construct, ht, hr, if_false, Bool.false_eq_true,
        Except.ok.injEq] at h
      subst h
      exact ⟨fun hf => absurd hf (Bool.not_eq_true _ ▸ ht), fun _ => rfl,
        fun hf => absurd hf (Bool.not_eq_true _ ▸ hr), fun _ => rfl,
        ⟨t, htv, ht1⟩, ⟨m, hm, hm1, hatt m, hneg m⟩⟩

theorem foldl_rmapPut_isSome {l : List S3Object} {m : RMap} {k : Str}
    (h : (rmapGet m k).isSome = true) :
    (rmapGet (l.foldl (fun m o => rmapPut m o.Key o) m) k).isSome = true := by
  induction l generalizing m with
  | nil => exact h
  | cons o rest ih =>
    exact ih (rmapGet_put_isSome m o.Key k o h)

theorem insertPage_isSome {m : RMap} {pg : ListPage} {k : Str}
    (h : (rmapGet m k).isSome = true) :
    (rmapGet (insertPage m pg) k).isSome = true :=
  foldl_rmapPut_isSome h

theorem insertPage_mem_isSome {m : RMap} {pg : ListPage} {o : S3Object}
    (h : o ∈ pg.contents) :
    (rmapGet (insertPage m pg) o.Key).isSome = true := by
  have haux : ∀ (l : List S3Object) (m : RMap), o ∈ l →
      (rmapGet (l.foldl (fun m o => rmapPut m o.Key o) m) o.Key).isSome = true := by
    intro l
    induction l with
    | nil => intro m hm; simp at hm
    | cons x rest ih =>
      intro m hm
      rcases List.mem_cons.mp hm with rfl | h'
      · rw [List.foldl_cons]
        refine foldl_rmapPut_isSome ?_
        rw [rmapGet_put, if_pos rfl]
        rfl
      · exact ih _ h'
  exact haux pg.contents m h

theorem listGo_ok_spec (fetch : Option Nat → Except String ListPage) :
    ∀ fuel tok acc m, listObjectsGo fetch fuel tok acc = some (.ok m) →
      (∀ k, (rmapGet acc k).isSome = true → (rmapGet m k).isSome = true)
      ∧ (∀ pg ∈ pagesVisited fetch fuel tok, ∀ o ∈ pg.contents,
          (rmapGet m o.Key).isSome = true)
      ∧ (∃ pre lastPg, pagesVisited fetch fuel tok = pre ++ [lastPg]
          ∧ lastPg.isTruncated = false
          ∧ ∀ pg ∈ pre, pg.isTruncated = true) := by
  intro fuel
  induction fuel with
  | zero => intro tok acc m h; exact absurd h (by simp [listObjectsGo])
  | succ fuel ih =>
    intro tok acc m h
    simp only [listObjectsGo] at h
    cases hf : fetch tok with
    | error e => rw [hf] at h; exact absurd h (by simp)
    | ok pg =>
      rw [hf] at h
      simp only at h
      by_cases htr : pg.isTruncated = true
      · rw [if_pos htr] at h
        obtain ⟨hacc, hpages, pre, lastPg, hsplit, hlast, hpre⟩ :=
          ih pg.nextToken (insertPage acc pg) m h
        refine ⟨fun k hk => hacc k (insertPage_isSome hk), ?_, ?_⟩
        · intro pg' hpg' o ho
          simp only [pagesVisited, hf, if_pos htr] at hpg'
          rcases List.mem_cons.mp hpg' with rfl | hpg'
          · exact hacc o.Key (insertPage_mem_isSome ho)
          · exact hpages pg' hpg' o ho
        · refine ⟨pg :: pre, lastPg, ?_, hlast, ?_⟩
          · simp [pagesVisited, hf, htr, hsplit]
          · intro pg' hpg'
            rcases List.mem_cons.mp hpg' with rfl | hpg'
            · exact htr
            · exact hpre pg' hpg'
      · rw [if_neg htr] at h
        have hm : insertPage acc pg = m := by
          simpa using h
        subst hm
        refine ⟨fun k hk => insertPage_isSome hk, ?_, ?_⟩
        · intro pg' hpg' o ho
          simp only [pagesVisited, hf, if_neg htr] at hpg'
          rw [List.mem_singleton] at hpg'
          subst hpg'
          exact insertPage_mem_isSome ho
        · refine ⟨[], pg, ?_, by simpa using htr, by simp⟩
          simp [pagesVisited, hf, htr]

/-- C4: when the paginated listing loop of `listObjects` returns a mapping,
it has followed continuation tokens until the store reported no further
page (every fetched page except the last was truncated and the last was
not), and the mapping holds an entry for every item of every fetched page,
keyed by the item's key; a store rejection on any page — first or a later
one — propagates out as the loop's result, so an error result carries no
partial mapping, and a truncated page makes the loop continue with that
page's continuation token. -/
theorem listObjects_drains_and_propagates :
    ∀ fetch : Option Nat → Except String ListPage,
      (∀ fuel tok acc m, listObjectsGo fetch fuel tok acc = some (Except.ok m) →
        (∀ pg ∈ pagesVisited fetch fuel tok, ∀ o ∈ pg.contents,
            (rmapGet m o.Key).isSome = true)
        ∧ (∃ pre lastPg, pagesVisited fetch fuel tok = pre ++ [lastPg]
            ∧ lastPg.isTruncated = false
            ∧ ∀ pg ∈ pre, pg.isTruncated = true))
      ∧ (∀ fuel tok acc e, fetch tok = Except.error e →
          listObjectsGo fetch (fuel + 1) tok acc = some (Except.error e))
      ∧ (∀ fuel tok acc pg, fetch tok = Except.ok pg → pg.isTruncated = true →
          listObjectsGo fetch (fuel + 1) tok acc =
            listObjectsGo fetch fuel pg.nextToken (insertPage acc pg)) := by
  intro fetch
  refine ⟨fun fuel tok acc m h => ?_, fun fuel tok acc e hf => ?_,
    fun fuel tok acc pg hf htr => ?_⟩
  · obtain ⟨_, h2, h3⟩ := listGo_ok_spec fetch fuel tok acc m h
    exact ⟨h2, h3⟩
  · simp [listObjectsGo, hf]
  · simp [listObjectsGo, hf, htr]

/-- A two-page store for the witness: the first request returns a truncated
page with one object and token 1, the second request returns a final page
with another object; any other request is rejected. -/
def fetchTwoPages : Option Nat → Except String ListPage
  | none => .ok ⟨[⟨['a'], ['e'], 3, 7⟩], true, some 1⟩
  | some 1 => .ok ⟨[⟨['b'], ['f'], 4, 8⟩], false, none⟩
  | some _ => .error "bad token"

theorem listObjects_drains_and_propagates_witness :
    ((∀ pg ∈ pagesVisited fetchTwoPages 5 none, ∀ o ∈ pg.contents,
        (rmapGet [(['a'], ⟨['a'], ['e'], 3, 7⟩), (['b'], ⟨['b'], ['f'], 4, 8⟩)]
          o.Key).isSome = true)
      ∧ (∃ pre lastPg, pagesVisited fetchTwoPages 5 none = pre ++ [lastPg]
          ∧ lastPg.isTruncated = false ∧ ∀ pg ∈ pre, pg.isTruncated = true))
    ∧ listObjectsGo fetchTwoPages 3 (some 2) [] =
        some (Except.error "bad token")
    ∧ listObjectsGo fetchTwoPages 3 none [] =
        listObjectsGo fetchTwoPages 2 (some 1)
          (insertPage [] ⟨[⟨['a'], ['e'], 3, 7⟩], true, some 1⟩) :=
  ⟨(listObjects_drains_and_propagates fetchTwoPages).1 5 none [] _ rfl,
   (listObjects_drains_and_propagates fetchTwoPages).2.1 2 (some 2) [] _ rfl,
   (listObjects_drains_and_propagates fetchTwoPages).2.2 2 none []
     ⟨[⟨['a'], ['e'], 3, 7⟩], true, some 1⟩ rfl rfl⟩

theorem eq_of_mem_nodup_fst {m : RMap} (hnd : (m.map Prod.fst).Nodup)
    {p q : Str × S3Object} (hp : p ∈ m) (hq : q ∈ m) (h : p.1 = q.1) :
    p = q := by
  induction m with
  | nil => simp at hp
  | cons x rest ih =>
    rw [List.map_cons, List.nodup_cons] at hnd
    rcases List.mem_cons.mp hp with rfl | hp' <;>
      rcases List.mem_cons.mp hq with rfl | hq'
    · rfl
    · exact absurd (h ▸ List.mem_map_of_mem Prod.fst hq') hnd.1
    · exact absurd (h ▸ List.mem_map_of_mem Prod.fst hp') hnd.1
    · exact ih hnd.2 hp' hq'

theorem clsSel_mem_iff {srcPrefix dstPrefix : Str} {srcObjs dstObjs : RMap}
    {k : Str} {s : S3Object} (hmem : (k, s) ∈ srcObjs)
    (hnd : (srcObjs.map Prod.fst).Nodup)
    (hkey : ∀ p ∈ srcObjs, p.2.Key = p.1) (c : Cls) :
    s ∈ clsSel srcPrefix dstPrefix dstObjs c srcObjs ↔
      classifyOne srcPrefix dstPrefix dstObjs k s = c := by
  constructor
  · intro h
    obtain ⟨p, hp, hps⟩ := List.mem_map.mp h
    have hpmem := (List.mem_filter.mp hp).1
    have hpcls := (List.mem_filter.mp hp).2
    have hp1 : p.1 = k := by
      have h1 : p.2.Key = p.1 := hkey p hpmem
      have h2 : s.Key = k := hkey (k, s) hmem
      rw [← h1, hps, h2]
    have : p = (k, s) := eq_of_mem_nodup_fst hnd hpmem hmem hp1
    rw [this] at hpcls
    exact of_decide_eq_true hpcls
  · intro h
    refine List.mem_map.mpr ⟨(k, s), List.mem_filter.mpr ⟨hmem, ?_⟩, rfl⟩
    exact decide_eq_true h

/-- C1: for every source key in the diff, the Diff Engine puts the source
record into exactly one of the three sets, following the source's decision
order — absent translated key means `needCopy`, a size difference means
`diff` (conflicting), an equal size with source `LastModified` at most the
destination's means `existed` (unchanged), and an equal size with a strictly
newer source `LastModified` means `diff`, never `existed`. -/
theorem compareSrcAndDst_classification :
    ∀ (srcPrefix dstPrefix : Str) (srcObjs dstObjs : RMap) (k : Str)
      (s : S3Object),
      (k, s) ∈ srcObjs →
      (srcObjs.map Prod.fst).Nodup →
      (∀ p ∈ srcObjs, p.2.Key = p.1) →
      (rmapGet dstObjs (compareDstKey srcPrefix dstPrefix k) = none →
        s ∈ (compareMaps srcPrefix dstPrefix srcObjs dstObjs).needCopy
        ∧ s ∉ (compareMaps srcPrefix dstPrefix srcObjs dstObjs).existed
        ∧ s ∉ (compareMaps srcPrefix dstPrefix srcObjs dstObjs).diff)
      ∧ (∀ d, rmapGet dstObjs (compareDstKey srcPrefix dstPrefix k) = some d →
          s.Size ≠ d.Size →
          s ∈ (compareMaps srcPrefix dstPrefix srcObjs dstObjs).diff
          ∧ s ∉ (compareMaps srcPrefix dstPrefix srcObjs dstObjs).needCopy
          ∧ s ∉ (compareMaps srcPrefix dstPrefix srcObjs dstObjs).existed)
      ∧ (∀ d, rmapGet dstObjs (compareDstKey srcPrefix dstPrefix k) = some d →
          s.Size = d.Size → s.LastModified ≤ d.LastModified →
          s ∈ (compareMaps srcPrefix dstPrefix srcObjs dstObjs).existed
          ∧ s ∉ (compareMaps srcPrefix dstPrefix srcObjs dstObjs).needCopy
          ∧ s ∉ (compareMaps srcPrefix dstPrefix srcObjs dstObjs).diff)
      ∧ (∀ d, rmapGet dstObjs (compareDstKey srcPrefix dstPrefix k) = some d →
          s.Size = d.Size → d.LastModified < s.LastModified →
          s ∈ (compareMaps srcPrefix dstPrefix srcObjs dstObjs).diff
          ∧ s ∉ (compareMaps srcPrefix dstPrefix srcObjs dstObjs).existed
          ∧ s ∉ (compareMaps srcPrefix dstPrefix srcObjs dstObjs).needCopy) := by
  intro srcPrefix dstPrefix srcObjs dstObjs k s hmem hnd hkey
  have hsel : ∀ c, s ∈ clsSel srcPrefix dstPrefix dstObjs c srcObjs ↔
      classifyOne srcPrefix dstPrefix dstObjs k s = c :=
    fun c => clsSel_mem_iff hmem hnd hkey c
  rw [compareMaps_eq]
  refine ⟨fun hd => ?_, fun d hd hsize => ?_, fun d hd hsize htime => ?_,
    fun d hd hsize htime => ?_⟩
  · have hc : classifyOne srcPrefix dstPrefix dstObjs k s = .needsCopy := by
      simp [classifyOne, hd]
    exact ⟨(hsel .needsCopy).mpr hc,
      fun h => by rw [hsel .unchanged] at h; rw [hc] at h; exact absurd h (by simp),
      fun h => by rw [hsel .conflicting] at h; rw [hc] at h; exact absurd h (by simp)⟩
  · have hc : classifyOne srcPrefix dstPrefix dstObjs k s = .conflicting := by
      simp [classifyOne, hd, hsize]
    exact ⟨(hsel .conflicting).mpr hc,
      fun h => by rw [hsel .needsCopy] at h; rw [hc] at h; exact absurd h (by simp),
      fun h => by rw [hsel .unchanged] at h; rw [hc] at h; exact absurd h (by simp)⟩
  · have hc : classifyOne srcPrefix dstPrefix dstObjs k s = .unchanged := by
      simp [classifyOne, hd, hsize, htime]
    exact ⟨(hsel .unchanged).mpr hc,
      fun h => by rw [hsel .needsCopy] at h; rw [hc] at h; exact absurd h (by simp),
      fun h => by rw [hsel .conflicting] at h; rw [hc] at h; exact absurd h (by simp)⟩
  · have hc : classifyOne srcPrefix dstPrefix dstObjs k s = .conflicting := by
      simp [classifyOne, hd, hsize, Nat.not_le.mpr htime]
    exact ⟨(hsel .conflicting).mpr hc,
      fun h => by rw [hsel .unchanged] at h; rw [hc] at h; exact absurd h (by simp),
      fun h => by rw [hsel .needsCopy] at h; rw [hc] at h; exact absurd h (by simp)⟩

/-- Concrete records for the classification witness: a source object absent
at destination, and one with equal size but a newer source timestamp. -/
def oAbsent : S3Object := ⟨['s', 'a'], ['e'], 1, 1⟩

def oNewer : S3Object := ⟨['s', 'e'], ['e'], 3, 8⟩

def dNewer : S3Object := ⟨['d', 'e'], ['e'], 3, 2⟩

def srcEx : RMap := [(['s', 'a'], oAbsent), (['s', 'e'], oNewer)]

def dstEx : RMap := [(['d', 'e'], dNewer)]

theorem compareSrcAndDst_classification_witness :
    (oAbsent ∈ (compareMaps ['s'] ['d'] srcEx dstEx).needCopy
      ∧ oAbsent ∉ (compareMaps ['s'] ['d'] srcEx dstEx).existed
      ∧ oAbsent ∉ (compareMaps ['s'] ['d'] srcEx dstEx).diff)
    ∧ (oNewer ∈ (compareMaps ['s'] ['d'] srcEx dstEx).diff
      ∧ oNewer ∉ (compareMaps ['s'] ['d'] srcEx dstEx).existed
      ∧ oNewer ∉ (compareMaps ['s'] ['d'] srcEx dstEx).needCopy) :=
  ⟨(compareSrcAndDst_classification ['s'] ['d'] srcEx dstEx ['s', 'a'] oAbsent
      (by decide) (by decide) (by decide)).1 (by decide),
   (compareSrcAndDst_classification ['s'] ['d'] srcEx dstEx ['s', 'e'] oNewer
      (by decide) (by decide) (by decide)).2.2.2 dNewer (by decide) (by decide)
      (by decide)⟩

theorem lengths_beq_zero (l1 l2 : List S3Object) :
    ((l1.length == 0 && l2.length == 0) = true) ↔ (l1 = [] ∧ l2 = []) := by
  simp [List.length_eq_zero]

theorem startSyncing_cases (srcPrefix dstPrefix : Str) (w : World) :
    (((compareSrcAndDst srcPrefix dstPrefix w).needCopy = []
        ∧ (compareSrcAndDst srcPrefix dstPrefix w).diff = []) →
      startSyncing srcPrefix dstPrefix w = (true, w))
    ∧ (¬((compareSrcAndDst srcPrefix dstPrefix w).needCopy = []
        ∧ (compareSrcAndDst srcPrefix dstPrefix w).diff = []) →
      startSyncing srcPrefix dstPrefix w =
        (((compareSrcAndDst srcPrefix dstPrefix
              (runCopies srcPrefix dstPrefix
                (runCopies srcPrefix dstPrefix w
                  (compareSrcAndDst srcPrefix dstPrefix w).needCopy)
                (compareSrcAndDst srcPrefix dstPrefix w).diff)).needCopy.length == 0
          && (compareSrcAndDst srcPrefix dstPrefix
              (runCopies srcPrefix dstPrefix
                (runCopies srcPrefix dstPrefix w
                  (compareSrcAndDst srcPrefix dstPrefix w).needCopy)
                (compareSrcAndDst srcPrefix dstPrefix w).diff)).diff.length == 0),
         runCopies srcPrefix dstPrefix
           (runCopies srcPrefix dstPrefix w
             (compareSrcAndDst srcPrefix dstPrefix w).needCopy)
           (compareSrcAndDst srcPrefix dstPrefix w).diff)) := by
  constructor
  · intro hc
    simp [startSyncing, hc.1, hc.2]
  · intro hc
    rcases not_and_or.mp hc with h | h
    · have hpos : 0 < (compareSrcAndDst srcPrefix dstPrefix w).needCopy.length :=
        List.length_pos.mpr h
      simp [startSyncing, hpos]
    · have hpos : 0 < (compareSrcAndDst srcPrefix dstPrefix w).diff.length :=
        List.length_pos.mpr h
      simp [startSyncing, hpos]

/-- C2: `startSyncing` returns `true` exactly when the compare results at its
final world have empty `needCopy` and `diff` sets; when the initial compare
finds both empty it performs no copies and returns `true` with the world
unchanged, and otherwise it runs the copy phase over both sets and
re-compares, returning the boolean outcome of that verification (false on
non-convergence) rather than throwing. -/
theorem startSyncing_true_iff_converged :
    ∀ (srcPrefix dstPrefix : Str) (w : World),
      ((startSyncing srcPrefix dstPrefix w).1 = true ↔
        ((compareSrcAndDst srcPrefix dstPrefix
            (startSyncing srcPrefix dstPrefix w).2).needCopy = []
          ∧ (compareSrcAndDst srcPrefix dstPrefix
            (startSyncing srcPrefix dstPrefix w).2).diff = []))
      ∧ (((compareSrcAndDst srcPrefix dstPrefix w).needCopy = []
          ∧ (compareSrcAndDst srcPrefix dstPrefix w).diff = []) →
          startSyncing srcPrefix dstPrefix w = (true, w))
      ∧ (¬((compareSrcAndDst srcPrefix dstPrefix w).needCopy = []
          ∧ (compareSrcAndDst srcPrefix dstPrefix w).diff = []) →
          (startSyncing srcPrefix dstPrefix w).2 =
            runCopies srcPrefix dstPrefix
              (runCopies srcPrefix dstPrefix w
                (compareSrcAndDst srcPrefix dstPrefix w).needCopy)
              (compareSrcAndDst srcPrefix dstPrefix w).diff) := by
  intro srcPrefix dstPrefix w
  by_cases hc : (compareSrcAndDst srcPrefix dstPrefix w).needCopy = []
      ∧ (compareSrcAndDst srcPrefix dstPrefix w).diff = []
  · have hss := (startSyncing_cases srcPrefix dstPrefix w).1 hc
    refine ⟨?_, fun _ => hss, fun hn => absurd hc hn⟩
    rw [hss]
    simpa using hc
  · have hss := (startSyncing_cases srcPrefix dstPrefix w).2 hc
    refine ⟨?_, fun h => absurd h hc, fun _ => by rw [hss]⟩
    rw [hss]
    exact lengths_beq_zero _ _

/-- Worlds for the orchestration witness: one where both sides already
agree, and one with a single source object missing at destination. -/
def wEmptyEx : World := ⟨[], [], 5⟩

def wCopyEx : World := ⟨[⟨['a'], ['e'], 2, 3⟩], [], 5⟩

theorem startSyncing_true_iff_converged_witness :
    startSyncing [] [] wEmptyEx = (true, wEmptyEx)
    ∧ (startSyncing [] [] wCopyEx).2 =
        runCopies [] []
          (runCopies [] [] wCopyEx (compareSrcAndDst [] [] wCopyEx).needCopy)
          (compareSrcAndDst [] [] wCopyEx).diff :=
  ⟨(startSyncing_true_iff_converged [] [] wEmptyEx).2.1 (by decide),
   (startSyncing_true_iff_converged [] [] wCopyEx).2.2 (by decide)⟩

theorem compare_lists_sub_src (srcPrefix dstPrefix : Str) (w : World) :
    ∀ x, (x ∈ (compareSrcAndDst srcPrefix dstPrefix w).needCopy
        ∨ x ∈ (compareSrcAndDst srcPrefix dstPrefix w).existed
        ∨ x ∈ (compareSrcAndDst srcPrefix dstPrefix w).diff) →
      x ∈ w.src ∧ leadsWith srcPrefix x.Key = true := by
  intro x hx
  have hsel : ∃ c, x ∈ clsSel srcPrefix dstPrefix (listModel w.dst dstPrefix) c
      (listModel w.src srcPrefix) := by
    unfold compareSrcAndDst at hx
    rw [compareMaps_eq] at hx
    rcases hx with h | h | h
    · exact ⟨.needsCopy, h⟩
    · exact ⟨.unchanged, h⟩
    · exact ⟨.conflicting, h⟩
  obtain ⟨c, hc⟩ := hsel
  obtain ⟨p, hp, hpx⟩ := List.mem_map.mp hc
  have hpL := (List.mem_filter.mp hp).1
  obtain ⟨hmem, hlead, _⟩ := mem_listModel hpL
  exact ⟨hpx ▸ hmem, hpx ▸ hlead⟩

theorem runCopies_frame (srcPrefix dstPrefix : Str) {dk : Str} :
    ∀ (R : List S3Object) (w : World),
      (∀ r ∈ R, copyObjectDstKey srcPrefix dstPrefix r.Key ≠ dk) →
      bucketGet (runCopies srcPrefix dstPrefix w R).dst dk = bucketGet w.dst dk
      ∧ (runCopies srcPrefix dstPrefix w R).src = w.src := by
  intro R
  induction R with
  | nil => exact fun w _ => ⟨rfl, rfl⟩
  | cons r rest ih =>
    intro w h
    have hstep : bucketGet (copyModel srcPrefix dstPrefix w r.Key).dst dk =
          bucketGet w.dst dk
        ∧ (copyModel srcPrefix dstPrefix w r.Key).src = w.src := by
      cases hg : bucketGet w.src r.Key with
      | none => simp [copyModel, hg]
      | some s =>
        refine ⟨?_, by simp [copyModel, hg]⟩
        simp only [copyModel, hg]
        simp [bucketGet_put, h r (List.mem_cons_self r rest)]
    have hrw : runCopies srcPrefix dstPrefix w (r :: rest) =
        runCopies srcPrefix dstPrefix (copyModel srcPrefix dstPrefix w r.Key) rest :=
      rfl
    rw [hrw]
    obtain ⟨ih1, ih2⟩ :=
      ih (copyModel srcPrefix dstPrefix w r.Key)
        (fun x hx => h x (List.mem_cons_of_mem r hx))
    exact ⟨ih1.trans hstep.1, ih2.trans hstep.2⟩

theorem startSyncing_frame (srcPrefix dstPrefix : Str) (w : World) (dk : Str)
    (h : ∀ s ∈ w.src, copyObjectDstKey srcPrefix dstPrefix s.Key ≠ dk) :
    bucketGet (startSyncing srcPrefix dstPrefix w).2.dst dk = bucketGet w.dst dk
    ∧ (startSyncing srcPrefix dstPrefix w).2.src = w.src := by
  by_cases hc : (compareSrcAndDst srcPrefix dstPrefix w).needCopy = []
      ∧ (compareSrcAndDst srcPrefix dstPrefix w).diff = []
  · rw [(startSyncing_cases srcPrefix dstPrefix w).1 hc]
    exact ⟨rfl, rfl⟩
  · rw [(startSyncing_cases srcPrefix dstPrefix w).2 hc]
    have hneed : ∀ r ∈ (compareSrcAndDst srcPrefix dstPrefix w).needCopy,
        copyObjectDstKey srcPrefix dstPrefix r.Key ≠ dk := fun r hr =>
      h r (compare_lists_sub_src srcPrefix dstPrefix w r (.inl hr)).1
    have hdiff : ∀ r ∈ (compareSrcAndDst srcPrefix dstPrefix w).diff,
        copyObjectDstKey srcPrefix dstPrefix r.Key ≠ dk := fun r hr =>
      h r (compare_lists_sub_src srcPrefix dstPrefix w r (.inr (.inr hr))).1
    obtain ⟨h1, h2⟩ := runCopies_frame srcPrefix dstPrefix
      (compareSrcAndDst srcPrefix dstPrefix w).needCopy w hneed
    obtain ⟨h3, h4⟩ := runCopies_frame srcPrefix dstPrefix
      (compareSrcAndDst srcPrefix dstPrefix w).diff
      (runCopies srcPrefix dstPrefix w
        (compareSrcAndDst srcPrefix dstPrefix w).needCopy) hdiff
    exact ⟨h3.trans h1, h4.trans h2⟩

/-- C6: a destination object whose key is not the translation of any source
key is never touched: its stored record survives any number of sync runs
unchanged, and every record the Diff Engine classifies (into any of the
three sets) is a source record — destination-only objects receive no
classification and are never written. -/
theorem destination_only_keys_untouched :
    ∀ (srcPrefix dstPrefix : Str) (w : World) (dk : Str) (o : S3Object)
      (n : Nat),
      bucketGet w.dst dk = some o →
      (∀ s ∈ w.src, copyObjectDstKey srcPrefix dstPrefix s.Key ≠ dk) →
      bucketGet (iterRuns srcPrefix dstPrefix n w).dst dk = some o
      ∧ (∀ x, (x ∈ (compareSrcAndDst srcPrefix dstPrefix w).needCopy
            ∨ x ∈ (compareSrcAndDst srcPrefix dstPrefix w).existed
            ∨ x ∈ (compareSrcAndDst srcPrefix dstPrefix w).diff) →
          x ∈ w.src) := by
  intro srcPrefix dstPrefix w dk o n hdst hsrc
  refine ⟨?_, fun x hx => (compare_lists_sub_src srcPrefix dstPrefix w x hx).1⟩
  induction n generalizing w with
  | zero => exact hdst
  | succ n ih =>
    show bucketGet (iterRuns srcPrefix dstPrefix n
      (startSyncing srcPrefix dstPrefix w).2).dst dk = some o
    obtain ⟨h1, h2⟩ := startSyncing_frame srcPrefix dstPrefix w dk hsrc
    exact ih _ (h1.trans hdst) (h2 ▸ hsrc)

/-- A world for the deletion-neutrality witness: the destination holds
`c.txt`-like object `dOnly` with no source counterpart. -/
def dOnly : S3Object := ⟨['d', 'c'], ['e'], 7, 1⟩

def wDelEx : World := ⟨[⟨['s', 'a'], ['e'], 2, 3⟩], [dOnly], 9⟩

theorem destination_only_keys_untouched_witness :
    bucketGet (iterRuns ['s'] ['d'] 3 wDelEx).dst ['d', 'c'] = some dOnly
    ∧ (∀ x, (x ∈ (compareSrcAndDst ['s'] ['d'] wDelEx).needCopy
          ∨ x ∈ (compareSrcAndDst ['s'] ['d'] wDelEx).existed
          ∨ x ∈ (compareSrcAndDst ['s'] ['d'] wDelEx).diff) →
        x ∈ wDelEx.src) :=
  destination_only_keys_untouched ['s'] ['d'] wDelEx ['d', 'c'] dOnly 3
    (by decide) (by decide)

theorem runCopies_append (srcPrefix dstPrefix : Str) (w : World)
    (l1 l2 : List S3Object) :
    runCopies srcPrefix dstPrefix w (l1 ++ l2) =
      runCopies srcPrefix dstPrefix (runCopies srcPrefix dstPrefix w l1) l2 := by
  simp [runCopies, List.foldl_append]

theorem listModel_keys_nodup {b : List S3Object} (pfx : Str)
    (hnd : (b.map S3Object.Key).Nodup) :
    ((listModel b pfx).map Prod.fst).Nodup := by
  rw [listModel_eq pfx hnd, List.map_map]
  have hfun : (Prod.fst ∘ fun o : S3Object => (o.Key, o)) = S3Object.Key := rfl
  rw [hfun]
  exact ((List.filter_sublist b).map S3Object.Key).nodup hnd

theorem clsSel_keys (srcPrefix dstPrefix : Str) (D : RMap) (c : Cls)
    (src : RMap) (hkey : ∀ p ∈ src, p.2.Key = p.1) :
    (clsSel srcPrefix dstPrefix D c src).map S3Object.Key =
      (src.filter
          (fun p => classifyOne srcPrefix dstPrefix D p.1 p.2 = c)).map Prod.fst := by
  unfold clsSel
  rw [List.map_map]
  exact List.map_congr_left (fun p hp => hkey p (List.mem_filter.mp hp).1)

theorem classifyOne_unchanged_iff (srcPrefix dstPrefix : Str) (D : RMap)
    (k : Str) (s : S3Object) :
    classifyOne srcPrefix dstPrefix D k s = .unchanged ↔
      ∃ d, rmapGet D (compareDstKey srcPrefix dstPrefix k) = some d
        ∧ s.Size = d.Size ∧ s.LastModified ≤ d.LastModified := by
  cases hd : rmapGet D (compareDstKey srcPrefix dstPrefix k) with
  | none => simp [classifyOne, hd]
  | some d =>
    by_cases hs : s.Size = d.Size
    · by_cases ht : s.LastModified ≤ d.LastModified
      · simp [classifyOne, hd, hs, ht]
      · simp [classifyOne, hd, hs, ht]
    · simp [classifyOne, hd, hs]

theorem compare_empty_iff (srcPrefix dstPrefix : Str) (srcObjs dstObjs : RMap) :
    ((compareMaps srcPrefix dstPrefix srcObjs dstObjs).needCopy = []
      ∧ (compareMaps srcPrefix dstPrefix srcObjs dstObjs).diff = []) ↔
      ∀ p ∈ srcObjs, classifyOne srcPrefix dstPrefix dstObjs p.1 p.2 = .unchanged := by
  rw [compareMaps_eq]
  simp only [clsSel, List.map_eq_nil_iff, List.filter_eq_nil_iff, decide_eq_true_eq]
  constructor
  · rintro ⟨hA, hC⟩ p hp
    cases hc : classifyOne srcPrefix dstPrefix dstObjs p.1 p.2 with
    | needsCopy => exact absurd hc (hA p hp)
    | unchanged => rfl
    | conflicting => exact absurd hc (hC p hp)
  · intro h
    exact ⟨fun p hp => by rw [h p hp]; simp, fun p hp => by rw [h p hp]; simp⟩

theorem runCopies_spec (srcPrefix dstPrefix : Str) :
    ∀ (R : List S3Object) (w : World),
      (∀ r ∈ R, bucketGet w.src r.Key = some r) →
      (R.map (fun r => copyObjectDstKey srcPrefix dstPrefix r.Key)).Nodup →
      (runCopies srcPrefix dstPrefix w R).src = w.src
      ∧ w.clock ≤ (runCopies srcPrefix dstPrefix w R).clock
      ∧ (∀ r ∈ R, ∃ t, w.clock ≤ t ∧
          bucketGet (runCopies srcPrefix dstPrefix w R).dst
              (copyObjectDstKey srcPrefix dstPrefix r.Key) =
            some ⟨copyObjectDstKey srcPrefix dstPrefix r.Key, r.ETag, r.Size, t⟩)
      ∧ (∀ k, (∀ r ∈ R, copyObjectDstKey srcPrefix dstPrefix r.Key ≠ k) →
          bucketGet (runCopies srcPrefix dstPrefix w R).dst k = bucketGet w.dst k)
      ∧ ((w.dst.map S3Object.Key).Nodup →
          ((runCopies srcPrefix dstPrefix w R).dst.map S3Object.Key).Nodup) := by
  intro R
  induction R with
  | nil =>
    exact fun w _ _ => ⟨rfl, Nat.le_refl _, by simp, fun k _ => rfl, id⟩
  | cons r rest ih =>
    intro w h1 h2
    rw [List.map_cons, List.nodup_cons] at h2
    obtain ⟨h2head, h2rest⟩ := h2
    have hg : bucketGet w.src r.Key = some r := h1 r (List.mem_cons_self r rest)
    have hw1 : copyModel srcPrefix dstPrefix w r.Key =
        { src := w.src,
          dst := bucketPut w.dst
            ⟨copyObjectDstKey srcPrefix dstPrefix r.Key, r.ETag, r.Size, w.clock⟩,
          clock := w.clock + 1 } := by
      simp [copyModel, hg]
    have hsrc1 : (copyModel srcPrefix dstPrefix w r.Key).src = w.src := by
      rw [hw1]
    have hclock1 : (copyModel srcPrefix dstPrefix w r.Key).clock = w.clock + 1 := by
      rw [hw1]
    have hdst1 : (copyModel srcPrefix dstPrefix w r.Key).dst = bucketPut w.dst
        ⟨copyObjectDstKey srcPrefix dstPrefix r.Key, r.ETag, r.Size, w.clock⟩ := by
      rw [hw1]
    have hrc : runCopies srcPrefix dstPrefix w (r :: rest) =
        runCopies srcPrefix dstPrefix (copyModel srcPrefix dstPrefix w r.Key) rest :=
      rfl
    obtain ⟨i1, i2, i3, i4, i5⟩ := ih (copyModel srcPrefix dstPrefix w r.Key)
      (fun x hx => by rw [hsrc1]; exact h1 x (List.mem_cons_of_mem r hx)) h2rest
    refine ⟨?_, ?_, ?_, ?_, ?_⟩
    · rw [hrc]; exact i1.trans hsrc1
    · rw [hrc]
      calc w.clock ≤ w.clock + 1 := Nat.le_succ _
        _ = (copyModel srcPrefix dstPrefix w r.Key).clock := hclock1.symm
        _ ≤ _ := i2
    · intro x hx
      rcases List.mem_cons.mp hx with rfl | hx'
      · have hfr : ∀ y ∈ rest, copyObjectDstKey srcPrefix dstPrefix y.Key ≠
            copyObjectDstKey srcPrefix dstPrefix x.Key := by
          intro y hy he
          exact h2head (he ▸ List.mem_map_of_mem _ hy)
        refine ⟨w.clock, Nat.le_refl _, ?_⟩
        rw [hrc, i4 _ hfr, hdst1]
        simp [bucketGet_put]
      · obtain ⟨t, ht1, heq⟩ := i3 x hx'
        refine ⟨t, ?_, by rw [hrc]; exact heq⟩
        calc w.clock ≤ w.clock + 1 := Nat.le_succ _
          _ = (copyModel srcPrefix dstPrefix w r.Key).clock := hclock1.symm
          _ ≤ t := ht1
    · intro k hk
      rw [hrc, i4 k (fun y hy => hk y (List.mem_cons_of_mem r hy)), hdst1]
      simp [bucketGet_put, hk r (List.mem_cons_self r rest)]
    · intro hnd
      rw [hrc]
      refine i5 ?_
      rw [hdst1]
      exact bucketPut_nodup hnd

theorem startSyncing_converges (srcPrefix dstPrefix : Str) (w : World)
    (hndS : (w.src.map S3Object.Key).Nodup)
    (hndD : (w.dst.map S3Object.Key).Nodup)
    (hclk : ∀ o ∈ w.src, o.LastModified ≤ w.clock) :
    (startSyncing srcPrefix dstPrefix w).1 = true
    ∧ (compareSrcAndDst srcPrefix dstPrefix
        (startSyncing srcPrefix dstPrefix w).2).needCopy = []
    ∧ (compareSrcAndDst srcPrefix dstPrefix
        (startSyncing srcPrefix dstPrefix w).2).diff = [] := by
  by_cases hc : (compareSrcAndDst srcPrefix dstPrefix w).needCopy = []
      ∧ (compareSrcAndDst srcPrefix dstPrefix w).diff = []
  · rw [(startSyncing_cases srcPrefix dstPrefix w).1 hc]
    exact ⟨rfl, hc.1, hc.2⟩
  · have hss := (startSyncing_cases srcPrefix dstPrefix w).2 hc
    have hkeyL : ∀ p ∈ listModel w.src srcPrefix, p.2.Key = p.1 :=
      fun p hp => ((mem_listModel hp).2.2).symm
    have hLk : ((listModel w.src srcPrefix).map Prod.fst).Nodup :=
      listModel_keys_nodup srcPrefix hndS
    have hnc : (compareSrcAndDst srcPrefix dstPrefix w).needCopy =
        clsSel srcPrefix dstPrefix (listModel w.dst dstPrefix) .needsCopy
          (listModel w.src srcPrefix) := by
      unfold compareSrcAndDst
      rw [compareMaps_eq]
    have hdf : (compareSrcAndDst srcPrefix dstPrefix w).diff =
        clsSel srcPrefix dstPrefix (listModel w.dst dstPrefix) .conflicting
          (listModel w.src srcPrefix) := by
      unfold compareSrcAndDst
      rw [compareMaps_eq]
    have hRsub : ∀ r, r ∈ (compareSrcAndDst srcPrefix dstPrefix w).needCopy ++
        (compareSrcAndDst srcPrefix dstPrefix w).diff →
        r ∈ w.src ∧ leadsWith srcPrefix r.Key = true := by
      intro r hr
      rcases List.mem_append.mp hr with h | h
      · exact compare_lists_sub_src srcPrefix dstPrefix w r (.inl h)
      · exact compare_lists_sub_src srcPrefix dstPrefix w r (.inr (.inr h))
    have h1 : ∀ r ∈ (compareSrcAndDst srcPrefix dstPrefix w).needCopy ++
        (compareSrcAndDst srcPrefix dstPrefix w).diff,
        bucketGet w.src r.Key = some r :=
      fun r hr => bucketGet_mem_nodup hndS (hRsub r hr).1
    have hkeysA : (compareSrcAndDst srcPrefix dstPrefix w).needCopy.map
          S3Object.Key =
        ((listModel w.src srcPrefix).filter
          (fun p => classifyOne srcPrefix dstPrefix (listModel w.dst dstPrefix)
            p.1 p.2 = .needsCopy)).map Prod.fst := by
      rw [hnc]
      exact clsSel_keys srcPrefix dstPrefix _ _ _ hkeyL
    have hkeysC : (compareSrcAndDst srcPrefix dstPrefix w).diff.map
          S3Object.Key =
        ((listModel w.src srcPrefix).filter
          (fun p => classifyOne srcPrefix dstPrefix (listModel w.dst dstPrefix)
            p.1 p.2 = .conflicting)).map Prod.fst := by
      rw [hdf]
      exact clsSel_keys srcPrefix dstPrefix _ _ _ hkeyL
    have hnodA : (((listModel w.src srcPrefix).filter
        (fun p => classifyOne srcPrefix dstPrefix (listModel w.dst dstPrefix)
          p.1 p.2 = .needsCopy)).map Prod.fst).Nodup :=
      ((List.filter_sublist _).map Prod.fst).nodup hLk
    have hnodC : (((listModel w.src srcPrefix).filter
        (fun p => classifyOne srcPrefix dstPrefix (listModel w.dst dstPrefix)
          p.1 p.2 = .conflicting)).map Prod.fst).Nodup :=
      ((List.filter_sublist _).map Prod.fst).nodup hLk
    have hdisj : List.Disjoint
        (((listModel w.src srcPrefix).filter
          (fun p => classifyOne srcPrefix dstPrefix (listModel w.dst dstPrefix)
            p.1 p.2 = .needsCopy)).map Prod.fst)
        (((listModel w.src srcPrefix).filter
          (fun p => classifyOne srcPrefix dstPrefix (listModel w.dst dstPrefix)
            p.1 p.2 = .conflicting)).map Prod.fst) := by
      intro k hkA hkC
      obtain ⟨pA, hpA, hpAk⟩ := List.mem_map.mp hkA
      obtain ⟨pC, hpC, hpCk⟩ := List.mem_map.mp hkC
      have hA := List.mem_filter.mp hpA
      have hC := List.mem_filter.mp hpC
      have hpe : pA = pC := eq_of_mem_nodup_fst hLk hA.1 hC.1
        (hpAk.trans hpCk.symm)
      have hA2 := of_decide_eq_true hA.2
      have hC2 := of_decide_eq_true hC.2
      rw [hpe] at hA2
      rw [hA2] at hC2
      exact Cls.noConfusion hC2
    have hRkeys : (((compareSrcAndDst srcPrefix dstPrefix w).needCopy ++
        (compareSrcAndDst srcPrefix dstPrefix w).diff).map S3Object.Key).Nodup := by
      rw [List.map_append, hkeysA, hkeysC]
      exact List.Nodup.append hnodA hnodC hdisj
    have h2 : (((compareSrcAndDst srcPrefix dstPrefix w).needCopy ++
        (compareSrcAndDst srcPrefix dstPrefix w).diff).map
          (fun r => copyObjectDstKey srcPrefix dstPrefix r.Key)).Nodup := by
      have hmapeq : (((compareSrcAndDst srcPrefix dstPrefix w).needCopy ++
          (compareSrcAndDst srcPrefix dstPrefix w).diff).map
            (fun r => copyObjectDstKey srcPrefix dstPrefix r.Key)) =
          (((compareSrcAndDst srcPrefix dstPrefix w).needCopy ++
            (compareSrcAndDst srcPrefix dstPrefix w).diff).map S3Object.Key).map
              (copyObjectDstKey srcPrefix dstPrefix) := by
        rw [List.map_map]
        rfl
      rw [hmapeq]
      refine List.Nodup.map_on ?_ hRkeys
      intro x hx y hy he
      obtain ⟨rx, hrx, hrxk⟩ := List.mem_map.mp hx
      obtain ⟨ry, hry, hryk⟩ := List.mem_map.mp hy
      have hlx : leadsWith srcPrefix x = true := hrxk ▸ (hRsub rx hrx).2
      have hly : leadsWith srcPrefix y = true := hryk ▸ (hRsub ry hry).2
      exact replaceFirst_inj hlx hly he
    obtain ⟨s1, s2, s3, s4, s5⟩ := runCopies_spec srcPrefix dstPrefix
      ((compareSrcAndDst srcPrefix dstPrefix w).needCopy ++
        (compareSrcAndDst srcPrefix dstPrefix w).diff) w h1 h2
    have hW2R : runCopies srcPrefix dstPrefix
        (runCopies srcPrefix dstPrefix w
          (compareSrcAndDst srcPrefix dstPrefix w).needCopy)
        (compareSrcAndDst srcPrefix dstPrefix w).diff =
        runCopies srcPrefix dstPrefix w
          ((compareSrcAndDst srcPrefix dstPrefix w).needCopy ++
            (compareSrcAndDst srcPrefix dstPrefix w).diff) :=
      (runCopies_append srcPrefix dstPrefix w _ _).symm
    have hall : ∀ p ∈ listModel w.src srcPrefix,
        classifyOne srcPrefix dstPrefix
          (listModel (runCopies srcPrefix dstPrefix w
            ((compareSrcAndDst srcPrefix dstPrefix w).needCopy ++
              (compareSrcAndDst srcPrefix dstPrefix w).diff)).dst dstPrefix)
          p.1 p.2 = .unchanged := by
      intro p hp
      obtain ⟨k, s⟩ := p
      obtain ⟨hpmem, hplead, hpkey⟩ := mem_listModel hp
      simp only at hpmem hplead hpkey
      subst hpkey
      have hndD2 := s5 hndD
      have hleadtr : leadsWith dstPrefix
          (compareDstKey srcPrefix dstPrefix s.Key) = true :=
        leadsWith_replaceFirst dstPrefix hplead
      have hck : compareDstKey srcPrefix dstPrefix s.Key =
          copyObjectDstKey srcPrefix dstPrefix s.Key := rfl
      cases hcls : classifyOne srcPrefix dstPrefix (listModel w.dst dstPrefix)
          s.Key s with
      | needsCopy =>
        have hmemR : s ∈ (compareSrcAndDst srcPrefix dstPrefix w).needCopy ++
            (compareSrcAndDst srcPrefix dstPrefix w).diff := by
          refine List.mem_append_left _ ?_
          rw [hnc]
          exact (clsSel_mem_iff hp hLk hkeyL .needsCopy).mpr hcls
        obtain ⟨t, htle, hbg⟩ := s3 s hmemR
        rw [classifyOne_unchanged_iff]
        refine ⟨⟨copyObjectDstKey srcPrefix dstPrefix s.Key, s.ETag, s.Size, t⟩,
          ?_, rfl, le_trans (hclk s hpmem) htle⟩
        rw [listModel_get dstPrefix _ hndD2, if_pos hleadtr, hck]
        exact hbg
      | conflicting =>
        have hmemR : s ∈ (compareSrcAndDst srcPrefix dstPrefix w).needCopy ++
            (compareSrcAndDst srcPrefix dstPrefix w).diff := by
          refine List.mem_append_right _ ?_
          rw [hdf]
          exact (clsSel_mem_iff hp hLk hkeyL .conflicting).mpr hcls
        obtain ⟨t, htle, hbg⟩ := s3 s hmemR
        rw [classifyOne_unchanged_iff]
        refine ⟨⟨copyObjectDstKey srcPrefix dstPrefix s.Key, s.ETag, s.Size, t⟩,
          ?_, rfl, le_trans (hclk s hpmem) htle⟩
        rw [listModel_get dstPrefix _ hndD2, if_pos hleadtr, hck]
        exact hbg
      | unchanged =>
        obtain ⟨d, hdl, hsize, htime⟩ :=
          (classifyOne_unchanged_iff srcPrefix dstPrefix _ s.Key s).mp hcls
        rw [listModel_get dstPrefix _ hndD, if_pos hleadtr] at hdl
        have havoid : ∀ r ∈ (compareSrcAndDst srcPrefix dstPrefix w).needCopy ++
            (compareSrcAndDst srcPrefix dstPrefix w).diff,
            copyObjectDstKey srcPrefix dstPrefix r.Key ≠
              compareDstKey srcPrefix dstPrefix s.Key := by
          intro r hr he
          have hlr : leadsWith srcPrefix r.Key = true := (hRsub r hr).2
          have hkeq : r.Key = s.Key := replaceFirst_inj hlr hplead he
          have hqex : ∃ q ∈ listModel w.src srcPrefix, q.2 = r ∧
              (classifyOne srcPrefix dstPrefix (listModel w.dst dstPrefix)
                  q.1 q.2 = .needsCopy
                ∨ classifyOne srcPrefix dstPrefix (listModel w.dst dstPrefix)
                  q.1 q.2 = .conflicting) := by
            rcases List.mem_append.mp hr with h | h
            · rw [hnc] at h
              obtain ⟨q, hq, hq2⟩ := List.mem_map.mp h
              exact ⟨q, (List.mem_filter.mp hq).1, hq2,
                .inl (of_decide_eq_true (List.mem_filter.mp hq).2)⟩
            · rw [hdf] at h
              obtain ⟨q, hq, hq2⟩ := List.mem_map.mp h
              exact ⟨q, (List.mem_filter.mp hq).1, hq2,
                .inr (of_decide_eq_true (List.mem_filter.mp hq).2)⟩
          obtain ⟨q, hqL, hq2, hqcls⟩ := hqex
          have hq1 : q.1 = s.Key := by rw [← hkeyL q hqL, hq2, hkeq]
          have hqp : q = (s.Key, s) := eq_of_mem_nodup_fst hLk hqL hp hq1
          rw [hqp] at hqcls
          rcases hqcls with h' | h'
          · exact Cls.noConfusion (hcls.symm.trans h')
          · exact Cls.noConfusion (hcls.symm.trans h')
        have hfr := s4 (compareDstKey srcPrefix dstPrefix s.Key) havoid
        rw [classifyOne_unchanged_iff]
        refine ⟨d, ?_, hsize, htime⟩
        rw [listModel_get dstPrefix _ hndD2, if_pos hleadtr, hfr]
        exact hdl
    have hcmpchain : compareSrcAndDst srcPrefix dstPrefix
        (runCopies srcPrefix dstPrefix
          (runCopies srcPrefix dstPrefix w
            (compareSrcAndDst srcPrefix dstPrefix w).needCopy)
          (compareSrcAndDst srcPrefix dstPrefix w).diff) =
        compareMaps srcPrefix dstPrefix (listModel w.src srcPrefix)
          (listModel (runCopies srcPrefix dstPrefix w
            ((compareSrcAndDst srcPrefix dstPrefix w).needCopy ++
              (compareSrcAndDst srcPrefix dstPrefix w).diff)).dst dstPrefix) := by
      have s1' := s1
      simp only [compareSrcAndDst] at s1'
      rw [hW2R]
      simp only [compareSrcAndDst, s1']
    have hempty := (compare_empty_iff srcPrefix dstPrefix _ _).mpr hall
    have hcmp1 : (compareSrcAndDst srcPrefix dstPrefix
        (runCopies srcPrefix dstPrefix
          (runCopies srcPrefix dstPrefix w
            (compareSrcAndDst srcPrefix dstPrefix w).needCopy)
          (compareSrcAndDst srcPrefix dstPrefix w).diff)).needCopy = [] := by
      rw [hcmpchain]
      exact hempty.1
    have hcmp2 : (compareSrcAndDst srcPrefix dstPrefix
        (runCopies srcPrefix dstPrefix
          (runCopies srcPrefix dstPrefix w
            (compareSrcAndDst srcPrefix dstPrefix w).needCopy)
          (compareSrcAndDst srcPrefix dstPrefix w).diff)).diff = [] := by
      rw [hcmpchain]
      exact hempty.2
    exact ⟨by rw [hss]; exact (lengths_beq_zero _ _).mpr ⟨hcmp1, hcmp2⟩,
      by rw [hss]; exact hcmp1, by rw [hss]; exact hcmp2⟩

/-- C7: with no source changes and every store operation succeeding
(modelled by the total bucket semantics), under well-formed listings (unique
keys on both sides) and a clock at or past every source timestamp, a first
`startSyncing` run returns `true`, its final world compares with empty
`needCopy` and `diff` sets, and a second run on that world immediately finds
both sets empty at its initial compare, performs no copies (the world is
returned unchanged) and also returns `true`. -/
theorem startSyncing_idempotent :
    ∀ (srcPrefix dstPrefix : Str) (w : World),
      (w.src.map S3Object.Key).Nodup →
      (w.dst.map S3Object.Key).Nodup →
      (∀ o ∈ w.src, o.LastModified ≤ w.clock) →
      (startSyncing srcPrefix dstPrefix w).1 = true
      ∧ (compareSrcAndDst srcPrefix dstPrefix
          (startSyncing srcPrefix dstPrefix w).2).needCopy = []
      ∧ (compareSrcAndDst srcPrefix dstPrefix
          (startSyncing srcPrefix dstPrefix w).2).diff = []
      ∧ startSyncing srcPrefix dstPrefix (startSyncing srcPrefix dstPrefix w).2 =
          (true, (startSyncing srcPrefix dstPrefix w).2) := by
  intro srcPrefix dstPrefix w h1 h2 h3
  obtain ⟨ha, hb, hc⟩ := startSyncing_converges srcPrefix dstPrefix w h1 h2 h3
  exact ⟨ha, hb, hc, (startSyncing_cases srcPrefix dstPrefix _).1 ⟨hb, hc⟩⟩

/-- A world for the idempotence witness: one source object not yet at the
destination, clock past its timestamp. -/
def wIdemEx : World := ⟨[⟨['s', 'a'], ['e'], 2, 3⟩], [], 7⟩

theorem startSyncing_idempotent_witness :
    (startSyncing ['s'] ['d'] wIdemEx).1 = true
    ∧ (compareSrcAndDst ['s'] ['d']
        (startSyncing ['s'] ['d'] wIdemEx).2).needCopy = []
    ∧ (compareSrcAndDst ['s'] ['d']
        (startSyncing ['s'] ['d'] wIdemEx).2).diff = []
    ∧ startSyncing ['s'] ['d'] (startSyncing ['s'] ['d'] wIdemEx).2 =
        (true, (startSyncing ['s'] ['d'] wIdemEx).2) :=
  startSyncing_idempotent ['s'] ['d'] wIdemEx (by decide) (by decide) (by decide)

/-- A configuration with a zero (falsy) thread count and an omitted retry
bound, for the defaulting witness. -/
def cfgZeroEx : S3LocationSyncRatchetConfig :=
  ⟨some 1, some ['b'], some ['p'], some 2, some ['c'], some ['q'], some 0, none⟩

def cfgZeroExDefaulted : S3LocationSyncRatchetConfig :=
  ⟨some 1, some ['b'], some ['p'], some 2, some ['c'], some ['q'], some 15,
    some 5⟩

theorem construct_defaults_falsy_fields_witness :
    (jsFalsyNum cfgZeroEx.maxNumThreads = true →
      cfgZeroExDefaulted.maxNumThreads = some 15)
    ∧ (jsFalsyNum cfgZeroEx.maxNumThreads = false →
        cfgZeroExDefaulted.maxNumThreads = cfgZeroEx.maxNumThreads)
    ∧ (jsFalsyNum cfgZeroEx.maxRetries = true →
        cfgZeroExDefaulted.maxRetries = some 5)
    ∧ (jsFalsyNum cfgZeroEx.maxRetries = false →
        cfgZeroExDefaulted.maxRetries = cfgZeroEx.maxRetries)
    ∧ (∃ t, cfgZeroExDefaulted.maxNumThreads = some t ∧ t ≠ 0)
    ∧ (∃ m, cfgZeroExDefaulted.maxRetries = some m ∧ m ≠ 0
        ∧ (1 ≤ m →
            ∀ (att : Bool → Nat → Except String Unit) (express : Bool),
              ∃ tr done, copyObjectRun att express m = Except.ok (tr, done)
                ∧ 1 ≤ tr.length)
        ∧ (m < 0 →
            ∀ (att : Bool → Nat → Except String Unit) (express : Bool),
              copyObjectRun att express m = Except.ok ([], false))) :=
  construct_defaults_falsy_fields cfgZeroEx cfgZeroExDefaulted rfl

end Ratchet
